import Mathlib

/-!
Formal model of the IPod-Shuffle-4-Manager database-construction pipeline.

The Rust source is shallowly embedded: byte buffers are `List Nat` (each
entry a byte value), strings are their UTF-8 byte lists, machine integers
are `Nat` reduced mod 2^w exactly where the code's fixed-width writes make
overflow observable.  Filesystem canonicalization is modelled as the
identity on already-canonical paths, and Unicode lowercasing is modelled
on the ASCII-byte level (the byte range the claims exercise).
-/

namespace IPodShuffle

/-- Little-endian 2-byte serialization of a machine integer
  (`byteorder::write_u16`). -/
def u16LE (n : Nat) : List Nat := [n % 256, n / 256 % 256]

/-- Little-endian 4-byte serialization (`byteorder::write_u32`). -/
def u32LE (n : Nat) : List Nat :=
  [n % 256, n / 256 % 256, n / 65536 % 256, n / 16777216 % 256]

/-- Little-endian 8-byte serialization (`byteorder::write_u64`). -/
def u64LE (n : Nat) : List Nat :=
  [n % 256, n / 256 % 256, n / 65536 % 256, n / 16777216 % 256,
   n / 4294967296 % 256, n / 1099511627776 % 256,
   n / 281474976710656 % 256, n / 72057594037927936 % 256]

/-- Read back a little-endian 4-byte value at position `pos` of a blob
  (out-of-range bytes read as 0). -/
def readU32LE (bs : List Nat) (pos : Nat) : Nat :=
  bs.getD pos 0 + 256 * bs.getD (pos + 1) 0 + 65536 * bs.getD (pos + 2) 0 +
    16777216 * bs.getD (pos + 3) 0

@[simp] theorem u16LE_length (n : Nat) : (u16LE n).length = 2 := rfl

@[simp] theorem u32LE_length (n : Nat) : (u32LE n).length = 4 := rfl

@[simp] theorem u64LE_length (n : Nat) : (u64LE n).length = 8 := rfl

/-- `database.rs::TrackInfo`: the per-track metadata record.  `filename`
  is the iPod-relative path as UTF-8 bytes; `dbid` is the 8-byte id. -/
structure TrackInfo where
  filename : List Nat
  filetype : Nat
  stop_at_pos_ms : Nat
  volume_gain : Nat
  album_id : Nat
  artist_id : Nat
  track_num : Nat
  disc_num : Nat
  dbid : List Nat

/-- `database.rs::write_track_record`: the fixed 0x174-byte track record.
  The filename field is 256 bytes: the first `min (len, 256)` bytes of the
  UTF-8 path, zero padded. -/
def write_track_record (track : TrackInfo) : List Nat :=
  [114, 116, 104, 115]                           -- "rths"
  ++ u32LE 0x174                                 -- header_length
  ++ u32LE 0                                     -- start_at_pos_ms
  ++ u32LE track.stop_at_pos_ms
  ++ u32LE track.volume_gain
  ++ u32LE track.filetype
  ++ (track.filename.take 256
      ++ List.replicate (256 - min track.filename.length 256) 0)
  ++ u32LE 0                                     -- bookmark
  ++ [1, 0, 0, 0]                                -- dontskip, remember, unintalbum, unknown
  ++ u32LE 0x200                                 -- pregap
  ++ u32LE 0x200                                 -- postgap
  ++ u32LE 0                                     -- numsamples
  ++ u32LE 0                                     -- unknown2
  ++ u32LE 0                                     -- gapless
  ++ u32LE 0                                     -- unknown3
  ++ u32LE track.album_id
  ++ u16LE track.track_num
  ++ u16LE track.disc_num
  ++ u64LE 0                                     -- unknown4
  ++ track.dbid
  ++ u32LE track.artist_id
  ++ List.replicate 32 0                         -- unknown5

theorem write_track_record_length (t : TrackInfo) (h8 : t.dbid.length = 8) :
    (write_track_record t).length = 0x174 := by
  simp [write_track_record, h8]
  omega

/-- The cumulative-offset loop shared by `build_track_header` and
  `build_playlist_header` (`chunk_offset += tc.len()`): the absolute
  offset of each serialized chunk, starting from `start`. -/
def chunkOffsets (start : Nat) : List (List Nat) → List Nat
  | [] => []
  | c :: cs => start :: chunkOffsets (start + c.length) cs

/-- `database.rs::build_track_header`: "hths" magic, section length
  `20 + 4*N`, track count, 8 reserved bytes, the offset table, then the
  concatenated track records. -/
def build_track_header (tracks : List TrackInfo) (base_offset : Nat) : List Nat :=
  [104, 116, 104, 115]                           -- "hths"
  ++ u32LE (20 + tracks.length * 4)              -- total_length
  ++ u32LE tracks.length                         -- number_of_tracks
  ++ u64LE 0                                     -- unknown1
  ++ ((chunkOffsets (base_offset + (20 + tracks.length * 4))
        (tracks.map write_track_record)).map u32LE).flatten
  ++ (tracks.map write_track_record).flatten

/-- `database.rs::write_playlist_record`: "lphs" magic, record length
  `44 + 4*S`, song count twice, 8-byte dbid, list type, 16 reserved
  bytes, then the track indices. -/
def write_playlist_record (dbid : List Nat) (listtype : Nat)
    (track_indices : List Nat) : List Nat :=
  [108, 112, 104, 115]                           -- "lphs"
  ++ u32LE (44 + 4 * track_indices.length)       -- total_length
  ++ u32LE track_indices.length                  -- number_of_songs
  ++ u32LE track_indices.length                  -- number_of_nonaudio
  ++ dbid
  ++ u32LE listtype
  ++ List.replicate 16 0                         -- unknown1
  ++ (track_indices.map u32LE).flatten

/-- The UTF-8 bytes of the sentinel master-playlist name `"__master__"`. -/
def masterName : List Nat := [95, 95, 109, 97, 115, 116, 101, 114, 95, 95]

/-- The UTF-8 bytes of `"masterlist"`, the text hashed for the master
  playlist's dbid when playlist voiceover is enabled. -/
def masterlistText : List Nat := [109, 97, 115, 116, 101, 114, 108, 105, 115, 116]

/-- The list-type selection in `build_playlist_header`: type 1 for the
  playlist named `"__master__"`, type 2 otherwise. -/
def listtypeOf (name : List Nat) : Nat := if name = masterName then 1 else 2

/-- The 64 MD5 round constants (the `md5` crate's compression function). -/
def md5K : List Nat :=
  [0xd76aa478, 0xe8c7b756, 0x242070db, 0xc1bdceee,
   0xf57c0faf, 0x4787c62a, 0xa8304613, 0xfd469501,
   0x698098d8, 0x8b44f7af, 0xffff5bb1, 0x895cd7be,
   0x6b901122, 0xfd987193, 0xa679438e, 0x49b40821,
   0xf61e2562, 0xc040b340, 0x265e5a51, 0xe9b6c7aa,
   0xd62f105d, 0x02441453, 0xd8a1e681, 0xe7d3fbc8,
   0x21e1cde6, 0xc33707d6, 0xf4d50d87, 0x455a14ed,
   0xa9e3e905, 0xfcefa3f8, 0x676f02d9, 0x8d2a4c8a,
   0xfffa3942, 0x8771f681, 0x6d9d6122, 0xfde5380c,
   0xa4beea44, 0x4bdecfa9, 0xf6bb4b60, 0xbebfbc70,
   0x289b7ec6, 0xeaa127fa, 0xd4ef3085, 0x04881d05,
   0xd9d4d039, 0xe6db99e5, 0x1fa27cf8, 0xc4ac5665,
   0xf4292244, 0x432aff97, 0xab9423a7, 0xfc93a039,
   0x655b59c3, 0x8f0ccc92, 0xffeff47d, 0x85845dd1,
   0x6fa87e4f, 0xfe2ce6e0, 0xa3014314, 0x4e0811a1,
   0xf7537e82, 0xbd3af235, 0x2ad7d2bb, 0xeb86d391]

/-- The 64 MD5 per-round left-rotation amounts. -/
def md5S : List Nat :=
  [7, 12, 17, 22, 7, 12, 17, 22, 7, 12, 17, 22, 7, 12, 17, 22,
   5, 9, 14, 20, 5, 9, 14, 20, 5, 9, 14, 20, 5, 9, 14, 20,
   4, 11, 16, 23, 4, 11, 16, 23, 4, 11, 16, 23, 4, 11, 16, 23,
   6, 10, 15, 21, 6, 10, 15, 21, 6, 10, 15, 21, 6, 10, 15, 21]

/-- 32-bit left rotation of `x` (assumed < 2^32) by `s` (0 < s < 32). -/
def rotl32 (x s : Nat) : Nat := (x * 2 ^ s + x / 2 ^ (32 - s)) % 4294967296

/-- The MD5 round mixing function (F, G, H, I by round quarter). -/
def md5F (i b c d : Nat) : Nat :=
  if i < 16 then Nat.lor (Nat.land b c) (Nat.land (Nat.xor b 4294967295) d)
  else if i < 32 then Nat.lor (Nat.land d b) (Nat.land (Nat.xor d 4294967295) c)
  else if i < 48 then Nat.xor (Nat.xor b c) d
  else Nat.xor c (Nat.lor b (Nat.xor d 4294967295))

/-- The MD5 message-word index schedule. -/
def md5G (i : Nat) : Nat :=
  if i < 16 then i
  else if i < 32 then (5 * i + 1) % 16
  else if i < 48 then (3 * i + 5) % 16
  else (7 * i) % 16

/-- One MD5 round: state `(a, b, c, d)` and round index `i`. -/
def md5Step (M : List Nat) (st : Nat × Nat × Nat × Nat) (i : Nat) :
    Nat × Nat × Nat × Nat :=
  let f := (md5F i st.2.1 st.2.2.1 st.2.2.2 + st.1 + md5K.getD i 0 +
      M.getD (md5G i) 0) % 4294967296
  (st.2.2.2, (st.2.1 + rotl32 f (md5S.getD i 0)) % 4294967296, st.2.1, st.2.2.1)

/-- Group a byte list into little-endian 32-bit words (fuel-driven so the
  kernel can evaluate it). -/
def bytesToWords : Nat → List Nat → List Nat
  | _, [] => []
  | 0, _ => []
  | fuel + 1, x :: xs => readU32LE (x :: xs) 0 :: bytesToWords fuel ((x :: xs).drop 4)

/-- Process one 64-byte MD5 chunk. -/
def md5Chunk (st : Nat × Nat × Nat × Nat) (chunk : List Nat) :
    Nat × Nat × Nat × Nat :=
  let M := bytesToWords chunk.length chunk
  let r := (List.range 64).foldl (md5Step M) st
  ((st.1 + r.1) % 4294967296, (st.2.1 + r.2.1) % 4294967296,
   (st.2.2.1 + r.2.2.1) % 4294967296, (st.2.2.2 + r.2.2.2) % 4294967296)

/-- Split a byte list into 64-byte chunks (fuel-driven). -/
def toChunks : Nat → List Nat → List (List Nat)
  | _, [] => []
  | 0, _ => []
  | fuel + 1, x :: xs => (x :: xs).take 64 :: toChunks fuel ((x :: xs).drop 64)

/-- MD5 padding: a 0x80 byte, zeros to 56 mod 64, then the 64-bit
  little-endian bit length. -/
def md5Pad (msg : List Nat) : List Nat :=
  msg ++ [128] ++ List.replicate ((120 - (msg.length + 1) % 64) % 64) 0
      ++ u64LE (msg.length * 8)

/-- The full MD5 digest (16 bytes) of a byte list. -/
def md5Bytes (msg : List Nat) : List Nat :=
  let padded := md5Pad msg
  let st := (toChunks padded.length padded).foldl md5Chunk
      (0x67452301, 0xefcdab89, 0x98badcfe, 0x10325476)
  u32LE st.1 ++ u32LE st.2.1 ++ u32LE st.2.2.1 ++ u32LE st.2.2.2

/-- `database.rs::make_dbid`: the first 8 bytes of the MD5 digest of the
  given text bytes. -/
def make_dbid (text : List Nat) : List Nat := (md5Bytes text).take 8

/-- The dbid selection inside `build_playlist_header`: all-zero only for
  the playlist named `"__master__"` when playlist voiceover is disabled;
  every other playlist (and the master when voiceover is on) gets
  `make_dbid` of its display text (`"masterlist"` for the master, the
  playlist name otherwise). -/
def playlistDbid (name : List Nat) (playlist_voiceover : Bool) : List Nat :=
  if name = masterName ∧ playlist_voiceover = false then List.replicate 8 0
  else make_dbid (if name = masterName then masterlistText else name)

/-- The per-playlist serialized chunks built by `build_playlist_header`. -/
def playlistChunks (playlists : List (List Nat × List Nat))
    (playlist_voiceover : Bool) : List (List Nat) :=
  playlists.map (fun p =>
    write_playlist_record (playlistDbid p.1 playlist_voiceover)
      (listtypeOf p.1) p.2)

/-- `database.rs::build_playlist_header`: "hphs" magic, section length
  `20 + 4*M`, playlist count, four fixed marker pairs, the absolute
  offset table, then the concatenated playlist records. -/
def build_playlist_header (playlists : List (List Nat × List Nat))
    (base_offset : Nat) (playlist_voiceover : Bool) : List Nat :=
  [104, 112, 104, 115]                            -- "hphs"
  ++ u32LE (20 + playlists.length * 4)            -- total_length
  ++ u32LE playlists.length                       -- number_of_playlists
  ++ [255, 255, 1, 0, 255, 255, 0, 0]             -- non_podcast, master, non_audiobook, unknown2
  ++ ((chunkOffsets (base_offset + (20 + playlists.length * 4))
        (playlistChunks playlists playlist_voiceover)).map u32LE).flatten
  ++ (playlistChunks playlists playlist_voiceover).flatten

/-- The fixed 64-byte database header ("bdhs") of `build_itunes_sd`. -/
def dbHeader (numTracks numPlaylists : Nat) (track_voiceover : Bool)
    (playlist_header_offset : Nat) : List Nat :=
  [98, 100, 104, 115]                              -- "bdhs"
  ++ u32LE 0x02000003                              -- unknown1
  ++ u32LE 64                                      -- total_length
  ++ u32LE numTracks                               -- total_tracks
  ++ u32LE numPlaylists                            -- total_playlists
  ++ u64LE 0                                       -- unknown2
  ++ [0]                                           -- max_volume
  ++ [if track_voiceover then 1 else 0]            -- voiceover_enabled
  ++ u16LE 0                                       -- unknown3
  ++ u32LE numTracks                               -- tracks_without_podcasts
  ++ u32LE 64                                      -- track_header_offset
  ++ u32LE playlist_header_offset
  ++ List.replicate 20 0                           -- unknown4

theorem dbHeader_length (nt np : Nat) (tv : Bool) (po : Nat) :
    (dbHeader nt np tv po).length = 64 := by
  simp [dbHeader]

/-- `database.rs::build_itunes_sd`: 64-byte database header, then the
  track-header section at offset 64, then the playlist-header section. -/
def build_itunes_sd (track_infos : List TrackInfo)
    (playlists : List (List Nat × List Nat))
    (track_voiceover playlist_voiceover : Bool) : List Nat :=
  dbHeader track_infos.length playlists.length track_voiceover
      (64 + (build_track_header track_infos 64).length)
  ++ build_track_header track_infos 64
  ++ build_playlist_header playlists
      (64 + (build_track_header track_infos 64).length) playlist_voiceover

/-- `shuffler.rs::run_shuffler` playlist assembly: the master playlist with
  indices `0..N-1` first, then every resolved source whose index list is
  non-empty (sources resolving to an empty list are dropped with a
  reported error). -/
def assemblePlaylists (numTracks : Nat)
    (resolved : List (List Nat × List Nat)) : List (List Nat × List Nat) :=
  (masterName, List.range numTracks) :: resolved.filter (fun r => !r.2.isEmpty)

theorem readU32LE_append (a b : List Nat) (pos : Nat) (h : a.length ≤ pos) :
    readU32LE (a ++ b) pos = readU32LE b (pos - a.length) := by
  unfold readU32LE
  rw [List.getD_append_right _ _ _ _ h,
      List.getD_append_right _ _ _ _ (by omega),
      List.getD_append_right _ _ _ _ (by omega),
      List.getD_append_right _ _ _ _ (by omega)]
  have e1 : pos + 1 - a.length = pos - a.length + 1 := by omega
  have e2 : pos + 2 - a.length = pos - a.length + 2 := by omega
  have e3 : pos + 3 - a.length = pos - a.length + 3 := by omega
  rw [e1, e2, e3]

theorem readU32LE_append_left (a b : List Nat) (pos : Nat)
    (h : pos + 4 ≤ a.length) :
    readU32LE (a ++ b) pos = readU32LE a pos := by
  unfold readU32LE
  rw [List.getD_append _ _ _ _ (by omega), List.getD_append _ _ _ _ (by omega),
      List.getD_append _ _ _ _ (by omega), List.getD_append _ _ _ _ (by omega)]

theorem readU32LE_u32LE (v : Nat) (rest : List Nat) :
    readU32LE (u32LE v ++ rest) 0 = v % 4294967296 := by
  simp [u32LE, readU32LE]
  omega

theorem readU32LE_flatten_u32LE (offs : List Nat) (tail : List Nat) (i : Nat)
    (h : i < offs.length) :
    readU32LE ((offs.map u32LE).flatten ++ tail) (4 * i)
      = offs.getD i 0 % 4294967296 := by
  induction offs generalizing i tail with
  | nil => simp at h
  | cons v vs ih =>
    cases i with
    | zero =>
      simp only [List.map_cons, List.flatten_cons, List.append_assoc,
        Nat.mul_zero, List.getD_cons_zero]
      exact readU32LE_u32LE v _
    | succ j =>
      simp only [List.map_cons, List.flatten_cons, List.append_assoc]
      rw [readU32LE_append (u32LE v) _ (4 * (j + 1)) (by simp)]
      have e : 4 * (j + 1) - (u32LE v).length = 4 * j := by simp; omega
      rw [e, ih _ _ (by simpa using h)]
      simp

theorem chunkOffsets_length (start : Nat) (chunks : List (List Nat)) :
    (chunkOffsets start chunks).length = chunks.length := by
  induction chunks generalizing start with
  | nil => simp [chunkOffsets]
  | cons c cs ih => simp [chunkOffsets, ih]

theorem chunkOffsets_getD (chunks : List (List Nat)) (start i L : Nat)
    (hall : ∀ c ∈ chunks, c.length = L) (h : i < chunks.length) :
    (chunkOffsets start chunks).getD i 0 = start + i * L := by
  induction chunks generalizing start i with
  | nil => simp at h
  | cons c cs ih =>
    cases i with
    | zero => simp [chunkOffsets]
    | succ j =>
      simp only [chunkOffsets, List.getD_cons_succ]
      rw [ih (start + c.length) j (fun x hx => hall x (by simp [hx]))
        (by simpa using h)]
      have hc : c.length = L := hall c (by simp)
      rw [hc]; ring

theorem flatten_map_const_length {α : Type} (l : List α) (f : α → List Nat)
    (L : Nat) (hall : ∀ x ∈ l, (f x).length = L) :
    ((l.map f).flatten).length = L * l.length := by
  induction l with
  | nil => simp
  | cons x xs ih =>
    simp only [List.map_cons, List.flatten_cons, List.length_append,
      hall x (by simp), ih (fun y hy => hall y (by simp [hy])),
      List.length_cons]
    ring

theorem build_track_header_length (tracks : List TrackInfo) (base : Nat)
    (h8 : ∀ t ∈ tracks, t.dbid.length = 8) :
    (build_track_header tracks base).length
      = 20 + 4 * tracks.length + 372 * tracks.length := by
  unfold build_track_header
  rw [List.length_append, List.length_append, List.length_append,
      List.length_append, List.length_append,
      flatten_map_const_length _ u32LE 4 (fun _ _ => rfl),
      flatten_map_const_length _ write_track_record 372
        (fun t ht => write_track_record_length t (h8 t ht))]
  simp [chunkOffsets_length]

theorem build_track_header_offset (tracks : List TrackInfo) (base i : Nat)
    (h8 : ∀ t ∈ tracks, t.dbid.length = 8) (hi : i < tracks.length) :
    readU32LE (build_track_header tracks base) (20 + 4 * i)
      = (base + (20 + tracks.length * 4) + i * 0x174) % 4294967296 := by
  unfold build_track_header
  simp only [List.append_assoc]
  rw [readU32LE_append _ _ _ (by simp only [List.length_cons, List.length_nil, u32LE_length, u64LE_length]; omega)]
  simp only [List.length_cons, List.length_nil]
  have e1 : 20 + 4 * i - 4 = 16 + 4 * i := by omega
  rw [e1, readU32LE_append _ _ _ (by simp only [List.length_cons, List.length_nil, u32LE_length, u64LE_length]; omega)]
  simp only [u32LE_length]
  have e2 : 16 + 4 * i - 4 = 12 + 4 * i := by omega
  rw [e2, readU32LE_append _ _ _ (by simp only [List.length_cons, List.length_nil, u32LE_length, u64LE_length]; omega)]
  simp only [u32LE_length]
  have e3 : 12 + 4 * i - 4 = 8 + 4 * i := by omega
  rw [e3, readU32LE_append _ _ _ (by simp only [List.length_cons, List.length_nil, u32LE_length, u64LE_length]; omega)]
  simp only [u64LE_length]
  have e4 : 8 + 4 * i - 8 = 4 * i := by omega
  rw [e4, readU32LE_flatten_u32LE _ _ i
        (by rw [chunkOffsets_length]; simpa using hi),
      chunkOffsets_getD _ _ _ 372
        (fun c hc => by
          obtain ⟨t, ht, rfl⟩ := List.mem_map.mp hc
          exact write_track_record_length t (h8 t ht))
        (by simpa using hi)]

theorem build_itunes_sd_read_track (tracks : List TrackInfo)
    (pls : List (List Nat × List Nat)) (tv pv : Bool) (pos : Nat)
    (hpos : pos + 4 ≤ (build_track_header tracks 64).length) :
    readU32LE (build_itunes_sd tracks pls tv pv) (64 + pos)
      = readU32LE (build_track_header tracks 64) pos := by
  unfold build_itunes_sd
  rw [List.append_assoc,
      readU32LE_append _ _ _ (by rw [dbHeader_length]; omega),
      dbHeader_length]
  have e : 64 + pos - 64 = pos := by omega
  rw [e, readU32LE_append_left _ _ _ hpos]

/-- C2: every serialized track record is exactly 0x174 bytes long, and in
  the full blob (whose track-header section sits at absolute offset 64)
  the N entries of the track-header offset table are absolute offsets
  starting at 64 + (20 + 4N) and strictly increasing by exactly 0x174. -/
theorem C2_track_offset_table (tracks : List TrackInfo)
    (pls : List (List Nat × List Nat)) (tv pv : Bool)
    (h8 : ∀ t ∈ tracks, t.dbid.length = 8)
    (hov : 64 + 20 + 4 * tracks.length + tracks.length * 0x174 < 4294967296) :
    (∀ t ∈ tracks, (write_track_record t).length = 0x174) ∧
    (∀ i, i < tracks.length →
      readU32LE (build_itunes_sd tracks pls tv pv) (84 + 4 * i)
        = 64 + (20 + 4 * tracks.length) + i * 0x174) ∧
    (∀ i, i + 1 < tracks.length →
      readU32LE (build_itunes_sd tracks pls tv pv) (84 + 4 * (i + 1))
        = readU32LE (build_itunes_sd tracks pls tv pv) (84 + 4 * i) + 0x174) := by
  have hlen := build_track_header_length tracks 64 h8
  have key : ∀ i, i < tracks.length →
      readU32LE (build_itunes_sd tracks pls tv pv) (84 + 4 * i)
        = 64 + (20 + 4 * tracks.length) + i * 0x174 := by
    intro i hi
    have e : 84 + 4 * i = 64 + (20 + 4 * i) := by omega
    rw [e, build_itunes_sd_read_track _ _ _ _ _ (by rw [hlen]; omega),
        build_track_header_offset tracks 64 i h8 hi,
        Nat.mod_eq_of_lt (by omega)]
    omega
  refine ⟨fun t ht => write_track_record_length t (h8 t ht), key, ?_⟩
  intro i hi
  rw [key _ hi, key _ (by omega)]
  omega

/-- A concrete track used by witnesses. -/
def sampleTrack (name : List Nat) : TrackInfo :=
  { filename := name, filetype := 1, stop_at_pos_ms := 1000,
    volume_gain := 0, album_id := 0, artist_id := 0,
    track_num := 1, disc_num := 0, dbid := [1, 2, 3, 4, 5, 6, 7, 8] }

/-- Witness for C2 at a concrete two-track catalog. -/
theorem C2_track_offset_table_witness :
    (∀ t ∈ [sampleTrack [97], sampleTrack [98]],
      (write_track_record t).length = 0x174) ∧
    (∀ i, i < ([sampleTrack [97], sampleTrack [98]] : List TrackInfo).length →
      readU32LE (build_itunes_sd [sampleTrack [97], sampleTrack [98]] [] false false)
          (84 + 4 * i)
        = 64 + (20 + 4 * ([sampleTrack [97], sampleTrack [98]] : List TrackInfo).length)
          + i * 0x174) ∧
    (∀ i, i + 1 < ([sampleTrack [97], sampleTrack [98]] : List TrackInfo).length →
      readU32LE (build_itunes_sd [sampleTrack [97], sampleTrack [98]] [] false false)
          (84 + 4 * (i + 1))
        = readU32LE (build_itunes_sd [sampleTrack [97], sampleTrack [98]] [] false false)
            (84 + 4 * i) + 0x174) :=
  C2_track_offset_table [sampleTrack [97], sampleTrack [98]] [] false false
    (by decide) (by decide)

theorem md5Bytes_length (msg : List Nat) : (md5Bytes msg).length = 16 := by
  simp [md5Bytes]

theorem make_dbid_length (text : List Nat) : (make_dbid text).length = 8 := by
  simp [make_dbid, md5Bytes_length]

theorem playlistDbid_length (name : List Nat) (pv : Bool) :
    (playlistDbid name pv).length = 8 := by
  unfold playlistDbid
  split
  · simp
  · exact make_dbid_length _

theorem write_playlist_record_length (dbid : List Nat) (lt : Nat)
    (idx : List Nat) (h8 : dbid.length = 8) :
    (write_playlist_record dbid lt idx).length = 44 + 4 * idx.length := by
  rw [write_playlist_record, List.length_append, List.length_append,
      List.length_append, List.length_append, List.length_append,
      List.length_append,
      flatten_map_const_length _ u32LE 4 (fun _ _ => rfl)]
  simp [h8]

theorem playlistChunks_length (pls : List (List Nat × List Nat)) (pv : Bool) :
    (playlistChunks pls pv).length = pls.length := by
  simp [playlistChunks]

theorem build_playlist_header_drop (pls : List (List Nat × List Nat))
    (off : Nat) (pv : Bool) :
    (build_playlist_header pls off pv).drop (20 + 4 * pls.length)
      = (playlistChunks pls pv).flatten := by
  unfold build_playlist_header
  refine List.drop_left' ?_
  rw [List.length_append, List.length_append, List.length_append,
      List.length_append,
      flatten_map_const_length _ u32LE 4 (fun _ _ => rfl),
      chunkOffsets_length, playlistChunks_length]
  simp

theorem build_playlist_header_first (p0 : List Nat × List Nat)
    (rest : List (List Nat × List Nat)) (off : Nat) (pv : Bool) :
    ((build_playlist_header (p0 :: rest) off pv).drop
        (20 + 4 * (p0 :: rest).length)).take (44 + 4 * p0.2.length)
      = write_playlist_record (playlistDbid p0.1 pv) (listtypeOf p0.1) p0.2 := by
  rw [build_playlist_header_drop]
  simp only [playlistChunks, List.map_cons, List.flatten_cons]
  exact List.take_left'
    (write_playlist_record_length _ _ _ (playlistDbid_length p0.1 pv))

/-- C1 counterexample: a resolved playlist source whose name is itself
  `"__master__"` also receives list-type code 1, so the master playlist
  is not the unique type-1 playlist and the others do not all get type 2. -/
theorem C1_counterexample :
    ¬ (∀ p ∈ (assemblePlaylists 1 [(masterName, [0])]).tail,
        listtypeOf p.1 = 2) := by
  decide

/-- C1 (amended): the playlist list passed to the serializer always
  begins with the master playlist carrying indices 0..N-1; it is
  serialized as the first playlist record with list-type 1; a playlist
  gets list-type 1 exactly when its name is `"__master__"`, so provided no
  resolved source is itself named `"__master__"`, every other playlist
  gets type 2 and the master is the unique type-1 playlist. -/
theorem C1_master_playlist_amended (numTracks : Nat)
    (resolved : List (List Nat × List Nat)) (off : Nat) (pv : Bool)
    (hname : ∀ p ∈ resolved, p.1 ≠ masterName) :
    (assemblePlaylists numTracks resolved).head?
      = some (masterName, List.range numTracks) ∧
    ((build_playlist_header (assemblePlaylists numTracks resolved) off pv).drop
        (20 + 4 * (assemblePlaylists numTracks resolved).length)).take
        (44 + 4 * numTracks)
      = write_playlist_record (playlistDbid masterName pv) 1
          (List.range numTracks) ∧
    (∀ p ∈ assemblePlaylists numTracks resolved,
      (listtypeOf p.1 = 1 ↔ p.1 = masterName)) ∧
    (∀ p ∈ (assemblePlaylists numTracks resolved).tail, listtypeOf p.1 = 2) := by
  refine ⟨rfl, ?_, ?_, ?_⟩
  · have h := build_playlist_header_first (masterName, List.range numTracks)
      (resolved.filter (fun r => !r.2.isEmpty)) off pv
    simp only [List.length_range] at h
    rw [show assemblePlaylists numTracks resolved
        = (masterName, List.range numTracks)
          :: resolved.filter (fun r => !r.2.isEmpty) from rfl]
    rw [h]
    simp [listtypeOf]
  · intro p _
    unfold listtypeOf
    split
    next h => simp [h]
    next h => simp [h]
  · intro p hp
    have hmem : p ∈ resolved.filter (fun r => !r.2.isEmpty) := hp
    have : p ∈ resolved := List.mem_of_mem_filter hmem
    unfold listtypeOf
    simp [hname p this]

/-- Witness for C1 (amended) at a concrete catalog of two tracks and one
  resolved non-master source. -/
theorem C1_master_playlist_witness :
    (assemblePlaylists 2 [([97], [1, 0])]).head?
      = some (masterName, List.range 2) ∧
    ((build_playlist_header (assemblePlaylists 2 [([97], [1, 0])]) 64 false).drop
        (20 + 4 * (assemblePlaylists 2 [([97], [1, 0])]).length)).take (44 + 4 * 2)
      = write_playlist_record (playlistDbid masterName false) 1 (List.range 2) ∧
    (∀ p ∈ assemblePlaylists 2 [([97], [1, 0])],
      (listtypeOf p.1 = 1 ↔ p.1 = masterName)) ∧
    (∀ p ∈ (assemblePlaylists 2 [([97], [1, 0])]).tail, listtypeOf p.1 = 2) :=
  C1_master_playlist_amended 2 [([97], [1, 0])] 64 false (by decide)

/-- ASCII lowercase on one byte (the byte-level model of Rust
  `to_lowercase` on the paths and extensions the pipeline compares). -/
def toLowerByte (b : Nat) : Nat := if 65 ≤ b ∧ b ≤ 90 then b + 32 else b

/-- `b` is a byte-wise prefix of the second list. -/
def isBytePrefix : List Nat → List Nat → Bool
  | [], _ => true
  | _ :: _, [] => false
  | x :: xs, y :: ys => x == y && isBytePrefix xs ys

/-- Byte-level model of `Path::starts_with` on canonical absolute paths:
  `base` is a prefix of `abs` ending at a component boundary. -/
def pathStartsWith (abs base : List Nat) : Bool :=
  isBytePrefix base abs &&
    (abs.length == base.length || abs.getD base.length 0 == 47)

/-- Position of the last occurrence of byte `b` in `s`. -/
def lastPos (b : Nat) (s : List Nat) : Option Nat :=
  match s.reverse.findIdx? (· == b) with
  | some j => some (s.length - 1 - j)
  | none => none

/-- The final path component (`Path::file_name`, modelled on canonical
  paths without trailing separators). -/
def fileNameOf (p : List Nat) : List Nat :=
  match lastPos 47 p with
  | some i => p.drop (i + 1)
  | none => p

/-- `Path::file_stem`: the file name up to its last dot (a leading dot
  does not count as an extension separator). -/
def fileStem (p : List Nat) : List Nat :=
  match lastPos 46 (fileNameOf p) with
  | some i => if i = 0 then fileNameOf p else (fileNameOf p).take i
  | none => fileNameOf p

/-- `utils.rs::ext_lower`: the lowercased extension with a leading dot,
  or empty when there is none. -/
def ext_lower (p : List Nat) : List Nat :=
  match lastPos 46 (fileNameOf p) with
  | some i =>
    if i = 0 then [] else 46 :: ((fileNameOf p).drop (i + 1)).map toLowerByte
  | none => []

/-- Replace backslash bytes by forward slashes (`replace('\\', "/")`). -/
def replaceBackslash (s : List Nat) : List Nat :=
  s.map (fun b => if b = 92 then 47 else b)

/-- The relative remainder of `abs` after the `base` prefix, without a
  leading separator (`Path::strip_prefix` at the byte level). -/
def stripRel (abs base : List Nat) : List Nat :=
  if (abs.drop base.length).headD 0 = 47 then (abs.drop base.length).drop 1
  else abs.drop base.length

/-- `utils.rs::path_to_ipod`: `"/" ++ rel` with backslashes turned into
  slashes when the file lies under the base, error otherwise.
  Canonicalization is modelled as the identity on the already-canonical
  paths the pipeline passes in; the error payload is dropped. -/
def path_to_ipod (filename base : List Nat) : Option (List Nat) :=
  if pathStartsWith filename base then
    some (47 :: replaceBackslash (stripRel filename base))
  else none

/-- The sentinel `"/unknown"` used when `path_to_ipod` fails. -/
def unknownPath : List Nat := [47, 117, 110, 107, 110, 111, 119, 110]

/-- The `"Unknown"` placeholder name for a missing artist or album tag. -/
def unknownText : List Nat := [85, 110, 107, 110, 111, 119, 110]

/-- The tag fields `build_track_info` reads through lofty.  `none` at the
  outer level models both an unreadable file and a file with no tag. -/
structure TagData where
  duration_ms : Nat
  title : Option (List Nat)
  artist : Option (List Nat)
  album : Option (List Nat)
  genre : Option (List Nat)
  track : Option Nat
  disk : Option Nat

/-- The album/artist tables threaded through `build_track_info`
  (`BuildContext`'s four collections; the hash maps are modelled as
  association lists). -/
structure CatalogState where
  albums : List (List Nat)
  albumIndex : List (List Nat × Nat)
  artists : List (List Nat)
  artistIndex : List (List Nat × Nat)

/-- Association-list lookup modelling `HashMap::get`. -/
def lookupIdx : List (List Nat × Nat) → List Nat → Option Nat
  | [], _ => none
  | (k, v) :: rest, key => if k = key then some v else lookupIdx rest key

/-- The first-seen id assignment of `build_track_info`: an existing name
  keeps its id, a new one gets `names.len()` and is appended. -/
def getOrInsert (name : List Nat) (names : List (List Nat))
    (index : List (List Nat × Nat)) :
    Nat × List (List Nat) × List (List Nat × Nat) :=
  match lookupIdx index name with
  | some i => (i, names, index)
  | none => (names.length, names ++ [name], index ++ [(name, names.length)])

/-- `database.rs::build_track_info`: builds one `TrackInfo` and the
  updated album/artist tables.  `gainOverride` is the entry of the
  auto-gain override map for this path, `tags` the lofty read result. -/
def build_track_info (filepath base : List Nat) (tags : Option TagData)
    (trackgain : Nat) (gainOverride : Option Nat) (st : CatalogState) :
    TrackInfo × CatalogState :=
  let ipod_path := (path_to_ipod filepath base).getD unknownPath
  let filetype :=
    if ext_lower filepath = [46, 109, 52, 97] ∨ ext_lower filepath = [46, 109, 52, 98]
        ∨ ext_lower filepath = [46, 109, 52, 112] ∨ ext_lower filepath = [46, 97, 97]
    then 2 else 1
  let volume_gain := match gainOverride with
    | some g => g
    | none => trackgain
  let stem := fileStem filepath
  match tags with
  | none =>
    ({ filename := ipod_path, filetype := filetype, stop_at_pos_ms := 0,
       volume_gain := volume_gain, album_id := 0, artist_id := 0,
       track_num := 1, disc_num := 0, dbid := make_dbid stem }, st)
  | some td =>
    let stop := if td.duration_ms < 4294967296 then td.duration_ms else 0
    let artist_name := td.artist.getD unknownText
    let ar := getOrInsert artist_name st.artists st.artistIndex
    let album_name := td.album.getD unknownText
    let al := getOrInsert album_name st.albums st.albumIndex
    let title := td.title.getD []
    let artist_str := td.artist.getD []
    let text := if title ≠ [] ∧ artist_str ≠ []
      then title ++ [32, 45, 32] ++ artist_str else stem
    ({ filename := ipod_path, filetype := filetype, stop_at_pos_ms := stop,
       volume_gain := volume_gain, album_id := al.1, artist_id := ar.1,
       track_num := td.track.getD 1 % 65536, disc_num := td.disk.getD 0 % 65536,
       dbid := make_dbid text },
     { albums := al.2.1, albumIndex := al.2.2,
       artists := ar.2.1, artistIndex := ar.2.2 })

theorem write_playlist_record_dbid (dbid : List Nat) (lt : Nat)
    (idx : List Nat) (h8 : dbid.length = 8) :
    ((write_playlist_record dbid lt idx).drop 16).take 8 = dbid := by
  have hsplit : write_playlist_record dbid lt idx
      = ([108, 112, 104, 115] ++ u32LE (44 + 4 * idx.length)
          ++ u32LE idx.length ++ u32LE idx.length)
        ++ (dbid ++ (u32LE lt ++ (List.replicate 16 0
          ++ (idx.map u32LE).flatten))) := by
    simp [write_playlist_record]
  rw [hsplit, List.drop_left' (by simp)]
  exact List.take_left' h8

set_option maxRecDepth 100000 in
/-- C3 counterexample: with playlist voiceover disabled, the non-master
  playlist named "foo" still gets a hash-derived dbid, not all-zero. -/
theorem C3_counterexample :
    ¬ (playlistDbid [102, 111, 111] false = List.replicate 8 0) := by
  decide

/-- C3 (amended): in every serialized playlist record the 8 dbid bytes
  at offset 16 are the selected dbid; that dbid is all-zero exactly for
  the master playlist with playlist voiceover disabled, while a
  non-master playlist always gets the hash of its name (and the master,
  with voiceover on, the hash of "masterlist"). -/
theorem C3_playlist_dbid_amended (name idx : List Nat) (pv : Bool) :
    ((write_playlist_record (playlistDbid name pv)
        (listtypeOf name) idx).drop 16).take 8 = playlistDbid name pv ∧
    (name = masterName → pv = false →
      playlistDbid name pv = List.replicate 8 0) ∧
    (name ≠ masterName → playlistDbid name pv = make_dbid name) ∧
    (pv = true → playlistDbid name pv
      = make_dbid (if name = masterName then masterlistText else name)) := by
  refine ⟨write_playlist_record_dbid _ _ _ (playlistDbid_length name pv),
    ?_, ?_, ?_⟩
  · intro h1 h2
    simp [playlistDbid, h1, h2]
  · intro h
    simp [playlistDbid, h]
  · intro h
    simp [playlistDbid, h]

/-- Witness for C3 (amended) at the concrete playlist "foo". -/
theorem C3_playlist_dbid_witness :
    ((write_playlist_record (playlistDbid [102, 111, 111] false)
        (listtypeOf [102, 111, 111]) [0]).drop 16).take 8
      = playlistDbid [102, 111, 111] false ∧
    ([102, 111, 111] = masterName → false = false →
      playlistDbid [102, 111, 111] false = List.replicate 8 0) ∧
    ([102, 111, 111] ≠ masterName →
      playlistDbid [102, 111, 111] false = make_dbid [102, 111, 111]) ∧
    (false = true → playlistDbid [102, 111, 111] false
      = make_dbid (if [102, 111, 111] = masterName then masterlistText
          else [102, 111, 111])) :=
  C3_playlist_dbid_amended [102, 111, 111] [0] false

/-- C8: when a path does not lie under the device root, building its
  track info does not fail: the filename recorded is the sentinel
  "/unknown" and its track record still serializes to 0x174 bytes. -/
theorem C8_unknown_path_sentinel (filepath base : List Nat)
    (tags : Option TagData) (tg : Nat) (go : Option Nat) (st : CatalogState)
    (h : pathStartsWith filepath base = false) :
    (build_track_info filepath base tags tg go st).1.filename = unknownPath ∧
    (write_track_record
        (build_track_info filepath base tags tg go st).1).length = 0x174 := by
  constructor
  · cases tags <;> simp [build_track_info, path_to_ipod, h]
  · apply write_track_record_length
    cases tags <;> simp [build_track_info, make_dbid_length]

/-- Witness for C8: the path "/x.mp3" does not lie under the root "/b". -/
theorem C8_unknown_path_witness :
    (build_track_info [47, 120, 46, 109, 112, 51] [47, 98] none 0 none
        ⟨[], [], [], []⟩).1.filename = unknownPath ∧
    (write_track_record
        (build_track_info [47, 120, 46, 109, 112, 51] [47, 98] none 0 none
          ⟨[], [], [], []⟩).1).length = 0x174 :=
  C8_unknown_path_sentinel [47, 120, 46, 109, 112, 51] [47, 98] none 0 none
    ⟨[], [], [], []⟩ (by decide)

/-- C10: a track whose tags cannot be read keeps album_id = artist_id = 0
  and inserts no album or artist entry at all (so it aliases whatever
  entries got id 0 first), while a readable track lacking artist and
  album names gets a dedicated "Unknown" entry at the next first-seen
  id in each table. -/
theorem C10_unreadable_tags_alias_ids (filepath base : List Nat) (tg : Nat)
    (go : Option Nat) (st : CatalogState) (td : TagData)
    (hartist : td.artist = none) (halbum : td.album = none)
    (hidxar : lookupIdx st.artistIndex unknownText = none)
    (hidxal : lookupIdx st.albumIndex unknownText = none) :
    ((build_track_info filepath base none tg go st).1.album_id = 0 ∧
     (build_track_info filepath base none tg go st).1.artist_id = 0 ∧
     (build_track_info filepath base none tg go st).2 = st) ∧
    ((build_track_info filepath base (some td) tg go st).1.artist_id
        = st.artists.length ∧
     (build_track_info filepath base (some td) tg go st).2.artists
        = st.artists ++ [unknownText] ∧
     (build_track_info filepath base (some td) tg go st).1.album_id
        = st.albums.length ∧
     (build_track_info filepath base (some td) tg go st).2.albums
        = st.albums ++ [unknownText]) := by
  constructor
  · simp [build_track_info]
  · simp [build_track_info, hartist, halbum, getOrInsert, hidxar, hidxal]

/-- Witness for C10 at a concrete tagless track over an empty catalog
  state. -/
theorem C10_unreadable_tags_witness :
    ((build_track_info [47, 98, 47, 97] [47, 98] none 0 none
        ⟨[], [], [], []⟩).1.album_id = 0 ∧
     (build_track_info [47, 98, 47, 97] [47, 98] none 0 none
        ⟨[], [], [], []⟩).1.artist_id = 0 ∧
     (build_track_info [47, 98, 47, 97] [47, 98] none 0 none
        ⟨[], [], [], []⟩).2 = ⟨[], [], [], []⟩) ∧
    ((build_track_info [47, 98, 47, 97] [47, 98]
        (some ⟨1000, none, none, none, none, none, none⟩) 0 none
        ⟨[], [], [], []⟩).1.artist_id = ([] : List (List Nat)).length ∧
     (build_track_info [47, 98, 47, 97] [47, 98]
        (some ⟨1000, none, none, none, none, none, none⟩) 0 none
        ⟨[], [], [], []⟩).2.artists = ([] : List (List Nat)) ++ [unknownText] ∧
     (build_track_info [47, 98, 47, 97] [47, 98]
        (some ⟨1000, none, none, none, none, none, none⟩) 0 none
        ⟨[], [], [], []⟩).1.album_id = ([] : List (List Nat)).length ∧
     (build_track_info [47, 98, 47, 97] [47, 98]
        (some ⟨1000, none, none, none, none, none, none⟩) 0 none
        ⟨[], [], [], []⟩).2.albums = ([] : List (List Nat)) ++ [unknownText]) :=
  C10_unreadable_tags_alias_ids [47, 98, 47, 97] [47, 98] 0 none
    ⟨[], [], [], []⟩ ⟨1000, none, none, none, none, none, none⟩ rfl rfl rfl rfl

/-- Round half away from zero: the behaviour of Rust `f64::round`,
  modelled on rationals. -/
def roundHalfAway (x : ℚ) : Int :=
  if 0 ≤ x then ⌊x + 1 / 2⌋ else -⌊-x + 1 / 2⌋

/-- The `f64::max` fold (starting from the first element) computing the
  auto-gain normalization reference. -/
def listMax : List ℚ → ℚ
  | [] => 0
  | x :: xs => xs.foldl max x

/-- The auto-gain stage of `run_shuffler` (shuffler.rs:136-165), the f64
  loudness arithmetic modelled over ℚ: an empty measurement map leaves
  the override table empty; otherwise the reference is the maximum
  measured level and each measured track gets
  `(round(reference - db) as u32).clamp(0, 99)` (the saturating `as u32`
  cast is `Int.toNat`). -/
def autoGainOverrides (lmap : List (List Nat × ℚ)) : List (List Nat × Nat) :=
  match lmap with
  | [] => []
  | _ :: _ =>
    lmap.map (fun p =>
      (p.1, min ((roundHalfAway (listMax (lmap.map (·.2)) - p.2)).toNat) 99))

/-- The auto-gain stage's warning: reported exactly when no track
  produced a loudness measurement. -/
def autoGainWarning (lmap : List (List Nat × ℚ)) : Bool := lmap.isEmpty

theorem foldl_max_le_self (l : List ℚ) (a : ℚ) : a ≤ l.foldl max a := by
  induction l generalizing a with
  | nil => simp
  | cons x xs ih => exact le_trans (le_max_left a x) (ih (max a x))

theorem mem_le_foldl_max (l : List ℚ) (a : ℚ) (x : ℚ) (hx : x ∈ l) :
    x ≤ l.foldl max a := by
  induction l generalizing a with
  | nil => simp at hx
  | cons y ys ih =>
    rcases List.mem_cons.mp hx with h | h
    · subst h
      exact le_trans (le_max_right a x) (foldl_max_le_self ys (max a x))
    · exact ih (max a y) h

theorem foldl_max_mem (l : List ℚ) (a : ℚ) :
    l.foldl max a = a ∨ l.foldl max a ∈ l := by
  induction l generalizing a with
  | nil => simp
  | cons y ys ih =>
    simp only [List.foldl_cons]
    rcases ih (max a y) with h | h
    · rcases max_choice a y with hm | hm
      · left; rw [h, hm]
      · right; rw [h, hm]; exact List.mem_cons_self y ys
    · right; exact List.mem_cons_of_mem y h

theorem roundHalfAway_nonneg (x : ℚ) (hx : 0 ≤ x) : 0 ≤ roundHalfAway x := by
  rw [roundHalfAway, if_pos hx]
  exact Int.floor_nonneg.mpr (by linarith)

/-- C5: with no measurements the override table stays empty and the
  warning fires; with measurements, the reference is the maximum measured
  level (it bounds every measurement and is itself one of them), each
  measured track's override equals `clamp(round(reference - measured),
  0, 99)` computed on integers, and a track with no measurement keeps the
  uniform default gain. -/
theorem C5_auto_gain (lmap : List (List Nat × ℚ)) (tg : Nat)
    (filepath base : List Nat) (tags : Option TagData) (st : CatalogState)
    (hne : lmap ≠ []) :
    (autoGainOverrides [] = [] ∧ autoGainWarning [] = true) ∧
    (autoGainWarning lmap = false ∧
     (∀ p ∈ lmap, p.2 ≤ listMax (lmap.map (·.2))) ∧
     listMax (lmap.map (·.2)) ∈ lmap.map (·.2) ∧
     (∀ p ∈ lmap,
       (p.1, Int.toNat (max 0 (min 99
           (roundHalfAway (listMax (lmap.map (·.2)) - p.2)))))
         ∈ autoGainOverrides lmap)) ∧
    (build_track_info filepath base tags tg none st).1.volume_gain = tg := by
  obtain ⟨q, rest, rfl⟩ : ∃ q rest, lmap = q :: rest := by
    cases lmap with
    | nil => exact absurd rfl hne
    | cons q rest => exact ⟨q, rest, rfl⟩
  refine ⟨⟨rfl, rfl⟩, ⟨rfl, ?_, ?_, ?_⟩, ?_⟩
  · intro p hp
    show p.2 ≤ (List.map (·.2) rest).foldl max q.2
    rcases List.mem_cons.mp hp with h | h
    · subst h
      exact foldl_max_le_self _ _
    · exact mem_le_foldl_max _ _ _ (List.mem_map_of_mem (·.2) h)
  · show (List.map (·.2) rest).foldl max q.2 ∈ _
    rcases foldl_max_mem (List.map (·.2) rest) q.2 with h | h
    · simp [listMax, h]
    · simp only [List.map_cons, listMax]
      exact List.mem_cons_of_mem _ h
  · intro p hp
    have href : 0 ≤ listMax ((q :: rest).map (·.2)) - p.2 := by
      have hle : p.2 ≤ listMax ((q :: rest).map (·.2)) := by
        rcases List.mem_cons.mp hp with h | h
        · subst h; exact foldl_max_le_self _ _
        · exact mem_le_foldl_max _ _ _ (List.mem_map_of_mem (·.2) h)
      linarith
    have hr := roundHalfAway_nonneg _ href
    have heq : Int.toNat (max 0 (min 99
        (roundHalfAway (listMax ((q :: rest).map (·.2)) - p.2))))
        = min ((roundHalfAway (listMax ((q :: rest).map (·.2)) - p.2)).toNat) 99 := by
      omega
    rw [heq]
    exact List.mem_map_of_mem _ hp
  · cases tags <;> simp [build_track_info]

/-- Witness for C5 at the spec's worked example: measured levels
  -10, -16, -20 dBFS. -/
theorem C5_auto_gain_witness :
    (autoGainOverrides [] = [] ∧ autoGainWarning [] = true) ∧
    (autoGainWarning [([97], -10), ([98], -16), ([99], -20)] = false ∧
     (∀ p ∈ ([([97], -10), ([98], -16), ([99], -20)] : List (List Nat × ℚ)),
       p.2 ≤ listMax (([([97], -10), ([98], -16), ([99], -20)] :
           List (List Nat × ℚ)).map (·.2))) ∧
     listMax (([([97], -10), ([98], -16), ([99], -20)] :
         List (List Nat × ℚ)).map (·.2))
       ∈ (([([97], -10), ([98], -16), ([99], -20)] :
         List (List Nat × ℚ)).map (·.2)) ∧
     (∀ p ∈ ([([97], -10), ([98], -16), ([99], -20)] : List (List Nat × ℚ)),
       (p.1, Int.toNat (max 0 (min 99
           (roundHalfAway (listMax (([([97], -10), ([98], -16), ([99], -20)] :
             List (List Nat × ℚ)).map (·.2)) - p.2)))))
         ∈ autoGainOverrides [([97], -10), ([98], -16), ([99], -20)])) ∧
    (build_track_info [47, 98, 47, 97] [47, 98] none 7 none
        ⟨[], [], [], []⟩).1.volume_gain = 7 :=
  C5_auto_gain [([97], -10), ([98], -16), ([99], -20)] 7 [47, 98, 47, 97]
    [47, 98] none ⟨[], [], [], []⟩ (by simp)

/-- The spec's auto-gain example evaluated concretely: levels
  {-10, -16, -20} with reference -10 produce overrides {0, 6, 10}. -/
theorem autoGain_example :
    autoGainOverrides [([97], -10), ([98], -16), ([99], -20)]
      = [([97], 0), ([98], 6), ([99], 10)] := by
  norm_num [autoGainOverrides, listMax, roundHalfAway]
  decide

/-- `Path::join` at the byte level: an absolute right-hand side replaces
  the left. -/
def joinPath (dir rel : List Nat) : List Nat :=
  if rel.headD 0 = 47 then rel else dir ++ 47 :: rel

/-- Entry resolution of a File playlist source (playlist.rs:95-109): a
  raw path existing verbatim on the filesystem is used as-is, otherwise
  it is joined onto the playlist file's directory; the result is looked
  up in the catalog's path-to-index map (canonicalization modelled as
  the identity).  Misses are reported ("cannot find track") and skipped.
  Returns the resolved indices and the reported paths. -/
def resolveFileEntries (positions : List Nat → Option Nat)
    (fsExists : List Nat → Bool) (playlistDir : List Nat) :
    List (List Nat) → List Nat × List (List Nat)
  | [] => ([], [])
  | rel :: rest =>
    let p := if fsExists rel then rel else joinPath playlistDir rel
    let r := resolveFileEntries positions fsExists playlistDir rest
    match positions p with
    | some i => (i :: r.1, r.2)
    | none => (r.1, p :: r.2)

theorem resolveFileEntries_all_good (positions : List Nat → Option Nat)
    (fsExists : List Nat → Bool) (dir : List Nat) (l : List (List Nat))
    (h : ∀ r ∈ l,
      positions (if fsExists r then r else joinPath dir r) ≠ none) :
    (resolveFileEntries positions fsExists dir l).1.length = l.length ∧
    (resolveFileEntries positions fsExists dir l).2 = [] := by
  induction l with
  | nil => exact ⟨rfl, rfl⟩
  | cons r rest ih =>
    have hr := h r (by simp)
    obtain ⟨i, hi⟩ := Option.ne_none_iff_exists'.mp hr
    have := ih (fun x hx => h x (by simp [hx]))
    simp only [resolveFileEntries, hi] at *
    simp [this.1, this.2]

/-- C6: a playlist file with resolvable entries and one unresolvable
  entry resolves to exactly the resolvable entries' indices with exactly
  one report; and in the shuffler's playlist assembly a resolved source
  with an empty index list never reaches the playlist set while a
  non-empty one always does (after the master). -/
theorem C6_unresolved_entries_skipped (positions : List Nat → Option Nat)
    (fsExists : List Nat → Bool) (dir : List Nat)
    (good1 good2 : List (List Nat)) (bad : List Nat)
    (hgood : ∀ r ∈ good1 ++ good2,
      positions (if fsExists r then r else joinPath dir r) ≠ none)
    (hbad : positions (if fsExists bad then bad else joinPath dir bad) = none) :
    ((resolveFileEntries positions fsExists dir (good1 ++ bad :: good2)).1.length
        = good1.length + good2.length ∧
     (resolveFileEntries positions fsExists dir
        (good1 ++ bad :: good2)).2.length = 1) ∧
    (∀ (numTracks : Nat) (resolved : List (List Nat × List Nat))
        (p : List Nat × List Nat), p ∈ resolved →
      (p.2 = [] → p ∉ (assemblePlaylists numTracks resolved).tail) ∧
      (p.2 ≠ [] → p ∈ (assemblePlaylists numTracks resolved).tail)) := by
  constructor
  · induction good1 with
    | nil =>
      have hrest := resolveFileEntries_all_good positions fsExists dir good2
        (fun x hx => hgood x (by simp [hx]))
      simp only [List.nil_append, resolveFileEntries, hbad] at *
      simp [hrest.1, hrest.2]
    | cons g gs ih =>
      have hg := hgood g (by simp)
      obtain ⟨i, hi⟩ := Option.ne_none_iff_exists'.mp hg
      have hrec := ih (fun x hx => hgood x (by
        rcases List.mem_append.mp hx with h1 | h2
        · simp [h1]
        · simp [h2]))
      have heq : resolveFileEntries positions fsExists dir
            ((g :: gs) ++ bad :: good2)
          = (i :: (resolveFileEntries positions fsExists dir
                (gs ++ bad :: good2)).1,
             (resolveFileEntries positions fsExists dir
                (gs ++ bad :: good2)).2) := by
        simp [resolveFileEntries, hi]
      rw [heq]
      refine ⟨?_, hrec.2⟩
      simp only [List.length_cons, hrec.1]
      omega
  · intro numTracks resolved p hp
    constructor
    · intro hempty hmem
      have : p ∈ resolved.filter (fun r => !r.2.isEmpty) := hmem
      have := List.of_mem_filter this
      simp [hempty] at this
    · intro hne
      show p ∈ resolved.filter (fun r => !r.2.isEmpty)
      exact List.mem_filter.mpr ⟨hp, by simpa using hne⟩

/-- Witness for C6: one resolvable entry, one unresolvable entry, one
  concrete resolved source. -/
theorem C6_unresolved_entries_witness :
    ((resolveFileEntries
        (fun p => if p = [47, 97] then some 0 else none)
        (fun _ => true) [47] ([[47, 97]] ++ [47, 98] :: [])).1.length
        = ([[47, 97]] : List (List Nat)).length + ([] : List (List Nat)).length ∧
     (resolveFileEntries
        (fun p => if p = [47, 97] then some 0 else none)
        (fun _ => true) [47] ([[47, 97]] ++ [47, 98] :: [])).2.length = 1) ∧
    (∀ (numTracks : Nat) (resolved : List (List Nat × List Nat))
        (p : List Nat × List Nat), p ∈ resolved →
      (p.2 = [] → p ∉ (assemblePlaylists numTracks resolved).tail) ∧
      (p.2 ≠ [] → p ∈ (assemblePlaylists numTracks resolved).tail)) :=
  C6_unresolved_entries_skipped
    (fun p => if p = [47, 97] then some 0 else none)
    (fun _ => true) [47] [[47, 97]] [] [47, 98]
    (by intro r hr; simp at hr; simp [hr]) (by simp)

theorem write_track_record_filename_field (t : TrackInfo) :
    ((write_track_record t).drop 24).take 256
      = t.filename.take 256
        ++ List.replicate (256 - min t.filename.length 256) 0 := by
  have hsplit : write_track_record t
      = ([114, 116, 104, 115] ++ u32LE 0x174 ++ u32LE 0
          ++ u32LE t.stop_at_pos_ms ++ u32LE t.volume_gain ++ u32LE t.filetype)
        ++ ((t.filename.take 256
            ++ List.replicate (256 - min t.filename.length 256) 0)
          ++ (u32LE 0 ++ ([1, 0, 0, 0] ++ (u32LE 0x200 ++ (u32LE 0x200
            ++ (u32LE 0 ++ (u32LE 0 ++ (u32LE 0 ++ (u32LE 0
            ++ (u32LE t.album_id ++ (u16LE t.track_num ++ (u16LE t.disc_num
            ++ (u64LE 0 ++ (t.dbid ++ (u32LE t.artist_id
            ++ List.replicate 32 0))))))))))))))) := by
    simp [write_track_record]
  rw [hsplit, List.drop_left' (by simp)]
  refine List.take_left' ?_
  simp
  omega

/-- C9: writing a track record never fails on a long path: the 256-byte
  filename field holds the first min(len, 256) bytes of the UTF-8 path
  zero-padded to 256 bytes, and the record remains exactly 0x174 bytes
  even when the path exceeds 256 bytes. -/
theorem C9_filename_truncation (t : TrackInfo) (h8 : t.dbid.length = 8) :
    (write_track_record t).length = 0x174 ∧
    ((write_track_record t).drop 24).take 256
      = t.filename.take 256
        ++ List.replicate (256 - min t.filename.length 256) 0 :=
  ⟨write_track_record_length t h8, write_track_record_filename_field t⟩

set_option maxRecDepth 100000 in
/-- Witness for C9 at a concrete track whose path is 300 bytes long. -/
theorem C9_filename_truncation_witness :
    (write_track_record (sampleTrack (List.replicate 300 97))).length = 0x174 ∧
    ((write_track_record (sampleTrack (List.replicate 300 97))).drop 24).take 256
      = (List.replicate 300 97).take 256
        ++ List.replicate (256 - min (List.replicate 300 97).length 256) 0 :=
  C9_filename_truncation (sampleTrack (List.replicate 300 97)) rfl

/-- Lexicographic (byte-wise) ≤ on byte lists: the order of Rust's `cmp`
  on strings and of `starts_with`-free byte comparison. -/
def bytesLe : List Nat → List Nat → Bool
  | [], _ => true
  | _ :: _, [] => false
  | x :: xs, y :: ys => if x < y then true else if y < x then false else bytesLe xs ys

/-- One stable-insertion step of a stable sort by a boolean ≤. -/
def orderedInsert {α : Type} (le : α → α → Bool) (a : α) : List α → List α
  | [] => [a]
  | b :: l => if le a b then a :: b :: l else b :: orderedInsert le a l

/-- Stable sort by a boolean ≤ (model of Rust's stable `sort_by`: any
  two stable sorts by the same total preorder agree). -/
def insertionSortBy {α : Type} (le : α → α → Bool) : List α → List α
  | [] => []
  | a :: l => orderedInsert le a (insertionSortBy le l)

/-- The lazy `.*?\x7d` step of the template-placeholder regex: the bytes
  strictly before the nearest closing brace, none crossing a newline. -/
def findBrace : List Nat → Option (List Nat × List Nat)
  | [] => none
  | 10 :: _ => none
  | 125 :: rest => some ([], rest)
  | c :: rest =>
    match findBrace rest with
    | some (ins, r) => some (c :: ins, r)
    | none => none

/-- All placeholder matches of the regex `\x7b.*?\x7d` over the template,
  leftmost first (`Regex::find_iter`), fuel-driven. -/
def findTemplateVarsAux : Nat → List Nat → List (List Nat)
  | _, [] => []
  | 0, _ => []
  | fuel + 1, 123 :: rest =>
    match findBrace rest with
    | some (ins, r) => (123 :: ins ++ [125]) :: findTemplateVarsAux fuel r
    | none => findTemplateVarsAux fuel rest
  | fuel + 1, _ :: rest => findTemplateVarsAux fuel rest

/-- The `template_vars` of `group_tracks_by_id3_template`. -/
def findTemplateVars (t : List Nat) : List (List Nat) :=
  findTemplateVarsAux t.length t

/-- `String::replace`: every non-overlapping occurrence of `pat`,
  left-to-right, replaced by `rep` (fuel-driven). -/
def replaceAllAux (pat rep : List Nat) : Nat → List Nat → List Nat
  | _, [] => []
  | 0, s => s
  | fuel + 1, c :: rest =>
    if pat ≠ [] ∧ isBytePrefix pat (c :: rest) = true
    then rep ++ replaceAllAux pat rep fuel ((c :: rest).drop pat.length)
    else c :: replaceAllAux pat rep fuel rest

/-- `key.replace(var, val)`. -/
def replaceAll (s pat rep : List Nat) : List Nat :=
  replaceAllAux pat rep s.length s

/-- The field name inside a matched placeholder: `var[1..var.len()-1]`. -/
def fieldOf (var : List Nat) : List Nat := (var.drop 1).dropLast

/-- The `tag_map.get(field)` lookup of `group_tracks_by_id3_template`:
  the four recognized fields; an absent value, an unreadable tag, or an
  unrecognized field name gives the empty string. -/
def tagValue (field : List Nat) (tags : Option TagData) : List Nat :=
  match tags with
  | none => []
  | some td =>
    if field = [116, 105, 116, 108, 101] then td.title.getD []
    else if field = [97, 114, 116, 105, 115, 116] then td.artist.getD []
    else if field = [97, 108, 98, 117, 109] then td.album.getD []
    else if field = [103, 101, 110, 114, 101] then td.genre.getD []
    else []

/-- The group key of one track: every placeholder occurrence replaced by
  the track's value for its field. -/
def groupKey (template : List Nat) (tags : Option TagData) : List Nat :=
  (findTemplateVars template).foldl
    (fun k v => replaceAll k v (tagValue (fieldOf v) tags)) template

/-- `any_present`: at least one placeholder resolved to a non-empty
  value for this track. -/
def anyPresent (template : List Nat) (tags : Option TagData) : Bool :=
  (findTemplateVars template).any
    (fun v => !(tagValue (fieldOf v) tags).isEmpty)

/-- `grouped.entry(key).or_default().push(track)` on the association-list
  model of the hash map. -/
def insertGroup {α : Type} (key : List Nat) (tr : α) :
    List (List Nat × List α) → List (List Nat × List α)
  | [] => [(key, [tr])]
  | (k, ts) :: rest =>
    if k = key then (k, ts ++ [tr]) :: rest
    else (k, ts) :: insertGroup key tr rest

/-- `playlist.rs::group_tracks_by_id3_template`: group every track with
  at least one non-empty placeholder value under its substituted key,
  then sort the groups by key.  Tracks are (identity, tag-read result)
  pairs; the hash map is an association list (its iteration order is
  irrelevant: the final sort is by the pairwise-distinct keys). -/
def group_tracks_by_id3_template {α : Type}
    (tracks : List (α × Option TagData)) (template : List Nat) :
    List (List Nat × List (α × Option TagData)) :=
  insertionSortBy (fun a b => bytesLe a.1 b.1)
    (tracks.foldl
      (fun acc tr =>
        if anyPresent template tr.2
        then insertGroup (groupKey template tr.2) tr acc
        else acc) [])

theorem bytesLe_total (a b : List Nat) :
    bytesLe a b = true ∨ bytesLe b a = true := by
  induction a generalizing b with
  | nil => left; rfl
  | cons x xs ih =>
    cases b with
    | nil => right; rfl
    | cons y ys =>
      by_cases h1 : x < y
      · left; simp [bytesLe, h1]
      · by_cases h2 : y < x
        · right; simp [bytesLe, h2]
        · have hxy : x = y := by omega
          subst hxy
          simpa [bytesLe] using ih ys

theorem bytesLe_trans (a b c : List Nat) (h1 : bytesLe a b = true)
    (h2 : bytesLe b c = true) : bytesLe a c = true := by
  induction a generalizing b c with
  | nil => rfl
  | cons x xs ih =>
    cases b with
    | nil => simp [bytesLe] at h1
    | cons y ys =>
      cases c with
      | nil => simp [bytesLe] at h2
      | cons z zs =>
        simp only [bytesLe] at h1 h2 ⊢
        split_ifs at h1 h2 ⊢ <;>
          first
          | rfl
          | exact ih ys zs h1 h2
          | omega

theorem mem_orderedInsert {α : Type} (le : α → α → Bool) (a x : α)
    (l : List α) : x ∈ orderedInsert le a l ↔ x = a ∨ x ∈ l := by
  induction l with
  | nil => simp [orderedInsert]
  | cons b l ih =>
    by_cases h : le a b
    · simp only [orderedInsert, if_pos h, List.mem_cons]
    · simp only [orderedInsert, if_neg h, List.mem_cons, ih]
      tauto

theorem mem_insertionSortBy {α : Type} (le : α → α → Bool) (x : α)
    (l : List α) : x ∈ insertionSortBy le l ↔ x ∈ l := by
  induction l with
  | nil => simp [insertionSortBy]
  | cons a l ih => simp [insertionSortBy, mem_orderedInsert, ih]

theorem pairwise_orderedInsert {α : Type} (le : α → α → Bool)
    (htot : ∀ a b, le a b = true ∨ le b a = true)
    (htrans : ∀ a b c, le a b = true → le b c = true → le a c = true)
    (a : α) (l : List α) (hl : l.Pairwise (fun x y => le x y = true)) :
    (orderedInsert le a l).Pairwise (fun x y => le x y = true) := by
  induction l with
  | nil => simp [orderedInsert]
  | cons b l ih =>
    rcases List.pairwise_cons.mp hl with ⟨hb, hl'⟩
    by_cases h : le a b
    · rw [orderedInsert, if_pos h]
      refine List.pairwise_cons.mpr ⟨?_, hl⟩
      intro y hy
      rcases List.mem_cons.mp hy with rfl | hy'
      · exact h
      · exact htrans a b y h (hb y hy')
    · have hba : le b a = true := (htot a b).resolve_left (by simpa using h)
      rw [orderedInsert, if_neg h]
      refine List.pairwise_cons.mpr ⟨?_, ih hl'⟩
      intro y hy
      rcases (mem_orderedInsert le a y l).mp hy with rfl | hy'
      · exact hba
      · exact hb y hy'

theorem pairwise_insertionSortBy {α : Type} (le : α → α → Bool)
    (htot : ∀ a b, le a b = true ∨ le b a = true)
    (htrans : ∀ a b c, le a b = true → le b c = true → le a c = true)
    (l : List α) :
    (insertionSortBy le l).Pairwise (fun x y => le x y = true) := by
  induction l with
  | nil => simp [insertionSortBy]
  | cons a l ih => exact pairwise_orderedInsert le htot htrans a _ ih

theorem memG_insertGroup {α : Type} (key : List Nat) (v tr : α)
    (acc : List (List Nat × List α)) :
    (∃ g ∈ insertGroup key v acc, tr ∈ g.2)
      ↔ (∃ g ∈ acc, tr ∈ g.2) ∨ tr = v := by
  induction acc with
  | nil =>
    simp only [insertGroup]
    constructor
    · rintro ⟨g, hg, htrg⟩
      have hg' : g = (key, [v]) := by simpa using hg
      subst hg'
      right
      simpa using htrg
    · rintro (⟨g, hg, _⟩ | h)
      · simp at hg
      · exact ⟨(key, [v]), by simp, by simp [h]⟩
  | cons p rest ih =>
    obtain ⟨k, ts⟩ := p
    by_cases h : k = key
    · subst h
      simp only [insertGroup, if_pos rfl]
      constructor
      · rintro ⟨g, hg, htrg⟩
        rcases List.mem_cons.mp hg with hgh | hg'
        · have htr2 : tr ∈ ts ++ [v] := by rw [hgh] at htrg; exact htrg
          rcases List.mem_append.mp htr2 with ht1 | ht2
          · exact Or.inl ⟨(k, ts), List.mem_cons_self _ _, ht1⟩
          · right
            simpa using ht2
        · exact Or.inl ⟨g, List.mem_cons_of_mem _ hg', htrg⟩
      · rintro (⟨g, hg, htrg⟩ | h)
        · rcases List.mem_cons.mp hg with hgh | hg'
          · refine ⟨(k, ts ++ [v]), List.mem_cons_self _ _, ?_⟩
            have : tr ∈ ts := by rw [hgh] at htrg; exact htrg
            exact List.mem_append_left _ this
          · exact ⟨g, List.mem_cons_of_mem _ hg', htrg⟩
        · exact ⟨(k, ts ++ [v]), List.mem_cons_self _ _, by simp [h]⟩
    · simp only [insertGroup, if_neg h]
      constructor
      · rintro ⟨g, hg, htrg⟩
        rcases List.mem_cons.mp hg with hgh | hg'
        · exact Or.inl ⟨(k, ts), List.mem_cons_self _ _, by rw [hgh] at htrg; exact htrg⟩
        · rcases ih.mp ⟨g, hg', htrg⟩ with ⟨g', hg'', htrg'⟩ | heq
          · exact Or.inl ⟨g', List.mem_cons_of_mem _ hg'', htrg'⟩
          · exact Or.inr heq
      · rintro (⟨g, hg, htrg⟩ | heq)
        · rcases List.mem_cons.mp hg with hgh | hg'
          · exact ⟨(k, ts), List.mem_cons_self _ _, by rw [hgh] at htrg; exact htrg⟩
          · obtain ⟨g', hg'', htrg'⟩ := ih.mpr (Or.inl ⟨g, hg', htrg⟩)
            exact ⟨g', List.mem_cons_of_mem _ hg'', htrg'⟩
        · obtain ⟨g', hg'', htrg'⟩ := ih.mpr (Or.inr heq)
          exact ⟨g', List.mem_cons_of_mem _ hg'', htrg'⟩

theorem memG_groupFold {α : Type} (template : List Nat)
    (tr : α × Option TagData) (l : List (α × Option TagData))
    (acc : List (List Nat × List (α × Option TagData))) :
    (∃ g ∈ l.foldl
        (fun acc t =>
          if anyPresent template t.2
          then insertGroup (groupKey template t.2) t acc
          else acc) acc, tr ∈ g.2)
      ↔ (∃ g ∈ acc, tr ∈ g.2)
        ∨ (tr ∈ l ∧ anyPresent template tr.2 = true) := by
  induction l generalizing acc with
  | nil => simp
  | cons t ts ih =>
    simp only [List.foldl_cons]
    rw [ih]
    by_cases h : anyPresent template t.2
    · simp only [if_pos h, memG_insertGroup]
      constructor
      · rintro (hacc | htr)
        · rcases hacc with hacc | heq
          · exact Or.inl hacc
          · refine Or.inr ⟨?_, ?_⟩
            · rw [heq]
              exact List.mem_cons_self _ _
            · rw [heq]
              exact h
        · exact Or.inr ⟨List.mem_cons_of_mem _ htr.1, htr.2⟩
      · rintro (hacc | ⟨hmem, hany⟩)
        · exact Or.inl (Or.inl hacc)
        · rcases List.mem_cons.mp hmem with rfl | hmem'
          · exact Or.inl (Or.inr rfl)
          · exact Or.inr ⟨hmem', hany⟩
    · simp only [if_neg h]
      constructor
      · rintro (hacc | ⟨hmem, hany⟩)
        · exact Or.inl hacc
        · exact Or.inr ⟨List.mem_cons_of_mem _ hmem, hany⟩
      · rintro (hacc | ⟨hmem, hany⟩)
        · exact Or.inl hacc
        · rcases List.mem_cons.mp hmem with rfl | hmem'
          · exact absurd hany (by simpa using h)
          · exact Or.inr ⟨hmem', hany⟩

/-- C7: a track lands in some auto-generated group if and only if at
  least one placeholder of the template resolved to a non-empty tag
  value for it; absent fields (or an unreadable tag) substitute as the
  empty string; and the emitted groups are sorted by group key. -/
theorem C7_tag_template_grouping {α : Type}
    (tracks : List (α × Option TagData)) (template : List Nat)
    (tr : α × Option TagData) (htr : tr ∈ tracks) :
    ((∃ g ∈ group_tracks_by_id3_template tracks template, tr ∈ g.2)
      ↔ anyPresent template tr.2 = true) ∧
    (group_tracks_by_id3_template tracks template).Pairwise
      (fun a b => bytesLe a.1 b.1 = true) ∧
    (∀ f : List Nat, tagValue f none = []) ∧
    (∀ (f : List Nat) (td : TagData), td.title = none → td.artist = none →
      td.album = none → td.genre = none → tagValue f (some td) = []) := by
  refine ⟨?_, ?_, fun f => rfl, ?_⟩
  · unfold group_tracks_by_id3_template
    constructor
    · rintro ⟨g, hg, htrg⟩
      have hg' := (mem_insertionSortBy _ _ _).mp hg
      rcases (memG_groupFold template tr tracks []).mp ⟨g, hg', htrg⟩ with
        ⟨g0, hg0, _⟩ | hpair
      · simp at hg0
      · exact hpair.2
    · intro hany
      obtain ⟨g, hg, htrg⟩ :=
        (memG_groupFold template tr tracks []).mpr (Or.inr ⟨htr, hany⟩)
      exact ⟨g, (mem_insertionSortBy _ _ _).mpr hg, htrg⟩
  · exact pairwise_insertionSortBy
      (fun (a b : List Nat × List (α × Option TagData)) => bytesLe a.1 b.1)
      (fun (a b : List Nat × List (α × Option TagData)) =>
        bytesLe_total a.1 b.1)
      (fun (a b c : List Nat × List (α × Option TagData)) h1 h2 =>
        bytesLe_trans a.1 b.1 c.1 h1 h2) _
  · intro f td h1 h2 h3 h4
    simp [tagValue, h1, h2, h3, h4]

/-- Witness for C7 at the spec's example: template "{artist} - {album}"
  over two tracks sharing artist A and album B and one untagged track. -/
theorem C7_tag_template_witness :
    ((∃ g ∈ group_tracks_by_id3_template
        [(1, some ⟨0, none, some [65], some [66], none, none, none⟩),
         (2, some ⟨0, none, some [65], some [66], none, none, none⟩),
         (3, (none : Option TagData))]
        [123, 97, 114, 116, 105, 115, 116, 125, 32, 45, 32,
         123, 97, 108, 98, 117, 109, 125],
      (1, (some ⟨0, none, some [65], some [66], none, none, none⟩ :
        Option TagData)) ∈ g.2)
      ↔ anyPresent
          [123, 97, 114, 116, 105, 115, 116, 125, 32, 45, 32,
           123, 97, 108, 98, 117, 109, 125]
          ((1, (some ⟨0, none, some [65], some [66], none, none, none⟩ :
            Option TagData))).2 = true) ∧
    (group_tracks_by_id3_template
        [(1, some ⟨0, none, some [65], some [66], none, none, none⟩),
         (2, some ⟨0, none, some [65], some [66], none, none, none⟩),
         (3, (none : Option TagData))]
        [123, 97, 114, 116, 105, 115, 116, 125, 32, 45, 32,
         123, 97, 108, 98, 117, 109, 125]).Pairwise
      (fun a b => bytesLe a.1 b.1 = true) ∧
    (∀ f : List Nat, tagValue f none = []) ∧
    (∀ (f : List Nat) (td : TagData), td.title = none → td.artist = none →
      td.album = none → td.genre = none → tagValue f (some td) = []) :=
  C7_tag_template_grouping
    [(1, some ⟨0, none, some [65], some [66], none, none, none⟩),
     (2, some ⟨0, none, some [65], some [66], none, none, none⟩),
     (3, (none : Option TagData))]
    [123, 97, 114, 116, 105, 115, 116, 125, 32, 45, 32,
     123, 97, 108, 98, 117, 109, 125]
    (1, some ⟨0, none, some [65], some [66], none, none, none⟩)
    (by simp)

/-- The spec's grouping example evaluated concretely: two tracks sharing
  artist A and album B and one with neither tag set produce exactly one
  group "A - B" of size 2; the untagged track appears in no group. -/
theorem grouping_example :
    (group_tracks_by_id3_template
        [(1, some ⟨0, none, some [65], some [66], none, none, none⟩),
         (2, some ⟨0, none, some [65], some [66], none, none, none⟩),
         (3, (none : Option TagData))]
        [123, 97, 114, 116, 105, 115, 116, 125, 32, 45, 32,
         123, 97, 108, 98, 117, 109, 125]).map
        (fun g => (g.1, g.2.map (·.1)))
      = [([65, 32, 45, 32, 66], [1, 2])] := by
  decide

/-- The comparison `run_shuffler` actually sorts the deduplicated track
  list by (shuffler.rs:131-133): byte-lexicographic order of the
  lowercased absolute path (ASCII-byte model of `to_lowercase`). -/
def trackSortLe (a b : List Nat) : Bool :=
  bytesLe (a.map toLowerByte) (b.map toLowerByte)

/-- The catalog order of `run_shuffler`: the stable sort of the track
  list by `trackSortLe` (Rust's stable `sort_by` modelled by a stable
  insertion sort; two stable sorts by the same total preorder agree). -/
def catalogOrder (tracks : List (List Nat)) : List (List Nat) :=
  insertionSortBy trackSortLe tracks

/-- Modelled from the spec: the order spec §4.4 asserts, a
  case-insensitive lexicographic sort of the tracks' iPod-relative
  paths (with the "/unknown" fallback for paths outside the base). -/
def specCatalogOrder (tracks : List (List Nat)) (base : List Nat) :
    List (List Nat) :=
  insertionSortBy (fun a b =>
    bytesLe (((path_to_ipod a base).getD unknownPath).map toLowerByte)
      (((path_to_ipod b base).getD unknownPath).map toLowerByte)) tracks

/-- The first index of a path in the sorted catalog: the
  `track_positions` map of shuffler.rs:176-179 (its keys are pairwise
  distinct after the HashSet dedup, so first match is the entry). -/
def findIndexOf (p : List Nat) : List (List Nat) → Option Nat
  | [] => none
  | t :: ts => if t = p then some 0 else (findIndexOf p ts).map (· + 1)

/-- `track_positions`: the path→index map built from the sorted catalog
  before any playlist source is resolved. -/
def trackPositions (sorted : List (List Nat)) (p : List Nat) : Option Nat :=
  findIndexOf p sorted

theorem orderedInsert_congr {α : Type} (le₁ le₂ : α → α → Bool) (a : α)
    (l : List α) (h : ∀ x ∈ l, le₁ a x = le₂ a x) :
    orderedInsert le₁ a l = orderedInsert le₂ a l := by
  induction l with
  | nil => rfl
  | cons b l ih =>
    rw [orderedInsert, orderedInsert, h b (List.mem_cons_self b l)]
    by_cases hb : le₂ a b
    · rw [if_pos hb, if_pos hb]
    · rw [if_neg hb, if_neg hb, ih (fun x hx => h x (List.mem_cons_of_mem _ hx))]

theorem insertionSortBy_congr {α : Type} (le₁ le₂ : α → α → Bool)
    (l : List α) (h : ∀ a ∈ l, ∀ b ∈ l, le₁ a b = le₂ a b) :
    insertionSortBy le₁ l = insertionSortBy le₂ l := by
  induction l with
  | nil => rfl
  | cons a l ih =>
    rw [insertionSortBy, insertionSortBy,
      ih (fun x hx y hy =>
        h x (List.mem_cons_of_mem _ hx) y (List.mem_cons_of_mem _ hy))]
    apply orderedInsert_congr
    intro x hx
    have hx' : x ∈ l := (mem_insertionSortBy _ _ _).mp hx
    exact h a (List.mem_cons_self a l) x (List.mem_cons_of_mem _ hx')

theorem isBytePrefix_append_self (p x : List Nat) :
    isBytePrefix p (p ++ x) = true := by
  induction p with
  | nil => rfl
  | cons c cs ih => simp [isBytePrefix, ih]

theorem bytesLe_append_same (p x y : List Nat) :
    bytesLe (p ++ x) (p ++ y) = bytesLe x y := by
  induction p with
  | nil => rfl
  | cons c cs ih => simp [bytesLe, ih]

theorem replaceBackslash_eq_self (s : List Nat) (h : 92 ∉ s) :
    replaceBackslash s = s := by
  induction s with
  | nil => rfl
  | cons c cs ih =>
    have hc : c ≠ 92 := fun hc => h (hc ▸ List.mem_cons_self c cs)
    have : (92 : Nat) ∉ cs := fun hm => h (List.mem_cons_of_mem _ hm)
    simp [replaceBackslash] at ih ⊢
    exact ⟨fun he => absurd he hc, ih this⟩

theorem path_to_ipod_under (base rest : List Nat) :
    path_to_ipod (base ++ 47 :: rest) base
      = some (47 :: replaceBackslash rest) := by
  unfold path_to_ipod
  rw [if_pos]
  · unfold stripRel
    rw [List.drop_left]
    simp
  · unfold pathStartsWith
    rw [isBytePrefix_append_self,
        List.getD_append_right _ _ _ _ (le_refl base.length)]
    simp

theorem trackPositions_spec (sorted : List (List Nat)) (p : List Nat)
    (hp : p ∈ sorted) :
    ∃ i, trackPositions sorted p = some i ∧ sorted.getD i [] = p := by
  induction sorted with
  | nil => simp at hp
  | cons t ts ih =>
    by_cases h : t = p
    · exact ⟨0, by simp [trackPositions, findIndexOf, h], by simp [h]⟩
    · have hp' : p ∈ ts := by
        rcases List.mem_cons.mp hp with heq | hm
        · exact absurd heq.symm h
        · exact hm
      obtain ⟨i, h1, h2⟩ := ih hp'
      refine ⟨i + 1, ?_, by simpa using h2⟩
      simp only [trackPositions, findIndexOf, if_neg h]
      simp only [trackPositions] at h1
      simp [h1]

/-- C4 counterexample: the code sorts by lowercased absolute path, not
  by iPod-relative path; with base "/b" and tracks "/b/a\x5cb" and
  "/b/a0" the two orders differ (the backslash byte 0x5c sorts after
  "0" absolutely, but becomes "/" = 0x2f, sorting before "0", in the
  iPod-relative form). -/
theorem C4_counterexample :
    catalogOrder [[47, 98, 47, 97, 92, 98], [47, 98, 47, 97, 48]]
      ≠ specCatalogOrder [[47, 98, 47, 97, 92, 98], [47, 98, 47, 97, 48]]
          [47, 98] := by
  decide

/-- C4 (amended): the catalog order is the case-insensitive
  lexicographic sort of the lowercased absolute canonical paths; for
  catalogs in which every track lies under the base and no path contains
  a backslash byte this coincides with the case-insensitive sort of
  iPod-relative paths, and the path-to-index map is built from the
  sorted list (each lookup returns the track's position in catalog
  order) before any playlist source is resolved. -/
theorem C4_catalog_sort_amended (tracks : List (List Nat)) (base : List Nat)
    (hunder : ∀ t ∈ tracks, ∃ rest, t = base ++ 47 :: rest)
    (hnb : ∀ t ∈ tracks, (92 : Nat) ∉ t) :
    catalogOrder tracks = specCatalogOrder tracks base ∧
    (∀ p ∈ tracks, ∃ i, trackPositions (catalogOrder tracks) p = some i ∧
      (catalogOrder tracks).getD i [] = p) := by
  constructor
  · apply insertionSortBy_congr
    intro a ha b hb
    obtain ⟨ra, hra⟩ := hunder a ha
    obtain ⟨rb, hrb⟩ := hunder b hb
    have hna : (92 : Nat) ∉ ra := fun hm =>
      hnb a ha (hra ▸ List.mem_append_right _ (List.mem_cons_of_mem _ hm))
    have hnb' : (92 : Nat) ∉ rb := fun hm =>
      hnb b hb (hrb ▸ List.mem_append_right _ (List.mem_cons_of_mem _ hm))
    subst hra hrb
    rw [trackSortLe, path_to_ipod_under, path_to_ipod_under,
      replaceBackslash_eq_self ra hna, replaceBackslash_eq_self rb hnb',
      List.map_append, List.map_append, bytesLe_append_same]
    rfl
  · intro p hp
    exact trackPositions_spec _ _ ((mem_insertionSortBy _ _ _).mpr hp)

/-- Witness for C4 (amended) at a concrete two-track catalog under
  base "/b". -/
theorem C4_catalog_sort_witness :
    catalogOrder [[47, 98, 47, 99], [47, 98, 47, 66]]
      = specCatalogOrder [[47, 98, 47, 99], [47, 98, 47, 66]] [47, 98] ∧
    (∀ p ∈ [[47, 98, 47, 99], [47, 98, 47, 66]],
      ∃ i, trackPositions
          (catalogOrder [[47, 98, 47, 99], [47, 98, 47, 66]]) p = some i ∧
        (catalogOrder [[47, 98, 47, 99], [47, 98, 47, 66]]).getD i [] = p) :=
  C4_catalog_sort_amended [[47, 98, 47, 99], [47, 98, 47, 66]] [47, 98]
    (by
      intro t ht
      rcases List.mem_cons.mp ht with h | h
      · exact ⟨[99], by rw [h]; rfl⟩
      · exact ⟨[66], by simp at h; rw [h]; rfl⟩)
    (by decide)

end IPodShuffle
